import Mathlib

/-!
Shallow embedding of the canandrepo CAN message codec
(`pycanandmessage/model.py`, `pycanandmessage/device.py`) and of the spec
inheritance resolver (`canandmessage_translingual/canandmessage_parser`).

Python arbitrary-precision non-negative integers are modelled by `Nat`,
possibly-negative ones by `Int`.  Python exceptions are modelled by
`Except PyErr`.  Bit operations `&`, `|`, `<<`, `>>` are `&&&`, `|||`,
`<<<`, `>>>` on `Nat`.
-/

/-- Python exception kinds raised by the codec.  The source raises
`ValueError` for all range/buffer/width violations, distinguished only by
message text; we keep the message families as separate constructors. -/
inductive PyErr where
  | outOfRange      -- "out of bounds" / "less than minimum" / "greater than maximum"
  | nonFinite       -- "is non-finite!"
  | bufferTooLong   -- "buffer len .. > max len .."
  | invalidWidth    -- "Float(w) invalid size!!!"
  | typeErr         -- Python TypeError (e.g. comparing float to None, int(None))
  | overflowErr     -- Python OverflowError (int.to_bytes too small)
  deriving DecidableEq, Repr

/-- Modelled from the spec: `utils.mask` from `pycanandmessage/utils.py`,
which is not present in the source tree (only its callers in `model.py`
are).  §4.3 of the spec writes the mask of a `w`-bit field as
`(1<<w)-1`. -/
def mask (w : Nat) : Nat := (1 <<< w) - 1

/-- Model of `utils.unwrap_or` (canandmessage_parser/utils.py). -/
def unwrap_or {α : Type} (v : Option α) (d : α) : α :=
  match v with
  | none => d
  | some x => x

/-- Model of `utils.default_uint_max`. -/
def default_uint_max (width : Nat) : Int := (1 <<< width : Nat) - 1

/-- Model of `utils.default_sint_min`. -/
def default_sint_min (width : Nat) : Int := -((1 <<< (width - 1) : Nat) : Int)

/-- Model of `utils.default_sint_max`. -/
def default_sint_max (width : Nat) : Int := ((1 <<< (width - 1) : Nat) : Int) - 1

/-- Python `v & ((1 << w) - 1)` on a possibly negative arbitrary-precision
integer: Python bitwise AND of an int with the all-ones mask `2^w - 1`
equals reduction modulo `2^w` (two's-complement semantics). -/
def landMask (v : Int) (w : Nat) : Nat := (v % ((2 : Int) ^ w)).toNat

/-- Python `int.from_bytes(value, 'little')`. -/
def fromBytesLE : List Nat → Nat
  | [] => 0
  | b :: bs => b + 256 * fromBytesLE bs

/-- Python `x.to_bytes(n, 'little')` for `x < 2^(8*n)` (the codec only
calls it on already-masked values, so the `OverflowError` branch is
unreachable there and is not modelled here). -/
def toBytesLE : Nat → Nat → List Nat
  | 0, _ => []
  | n + 1, x => (x % 256) :: toBytesLE n (x / 256)

/-!  ## Data model (`model.py` classes)

The per-signal metadata classes `UInt`, `SInt`, `Boolean`, `Buffer`,
`Bitset`, `Enum` become one inductive.  The `Float` and `Struct` cases of
the source's `Signal.encode`/`Signal.decode` are modelled by the dedicated
definitions `float24*` / `floatBoundsCheck` further below (no claim here
depends on struct recursion, and the float paths need the IEEE-754 bit
pattern domain, kept separate).  Fields not used by the codec
(`default_value`, `factor_num`, `factor_den`, `offset`, `dtype`) are
omitted. -/

inductive DTypeMeta where
  | uint (width : Nat) (min max : Option Int)
  | sint (width : Nat) (min max : Option Int)
  | boolean
  | buffer (width : Nat)
  | bitset (width : Nat)
  | enum (width : Nat)
  deriving DecidableEq, Repr

/-- Model of `Signal` (model.py line 161): bit offset, metadata, optional flag. -/
structure SignalM where
  offset : Nat
  meta : DTypeMeta
  optional : Bool
  deriving DecidableEq, Repr

/-- Runtime values handed to `Signal.encode` / returned by
`Signal.decode`.  `vint` models Python ints (UInt/SInt values), `vnat`
models the non-negative integer value of `enum.Flag`/`IntEnum` members
(Bitset/Enum), `vbuf` a Python byte string as its list of byte values. -/
inductive Value where
  | vint (i : Int)
  | vnat (n : Nat)
  | vbool (b : Bool)
  | vbuf (bs : List Nat)
  | vnone
  deriving DecidableEq, Repr

/-- Python truthiness, as applied by `bool(value)` in the `Boolean`
encode case (model.py line 242). -/
def pyTruthy : Value → Bool
  | .vint i => i ≠ 0
  | .vnat n => n ≠ 0
  | .vbool b => b
  | .vbuf bs => bs ≠ []
  | .vnone => false

/-- Model of `Signal.encode` (model.py lines 218-287) for the modelled metadata
kinds.  Returns the contribution `ivalue << offset` or the raised
exception.  A (meta, value) pairing the Python code would crash on
(e.g. `int(None)`) is `typeErr`. -/
def sigEncode (s : SignalM) (value : Value) : Except PyErr Nat :=
  if s.optional ∧ value = .vnone then .ok 0
  else
    match s.meta, value with
    | .uint w mn mx, .vint v =>
        let min_bound := unwrap_or mn 0
        let max_bound := unwrap_or mx (default_uint_max w)
        if ¬ (min_bound ≤ v ∧ v ≤ max_bound) then .error .outOfRange
        else .ok (landMask v w <<< s.offset)
    | .sint w mn mx, .vint v =>
        let min_bound := unwrap_or mn (default_sint_min w)
        let max_bound := unwrap_or mx (default_sint_max w)
        if ¬ (min_bound ≤ v ∧ v ≤ max_bound) then .error .outOfRange
        else .ok (landMask v w <<< s.offset)
    | .boolean, v => .ok ((if pyTruthy v then 1 else 0) <<< s.offset)
    | .buffer w, .vbuf bs =>
        let max_len := (w + 7) / 8
        if bs.length > max_len then .error .bufferTooLong
        else .ok (fromBytesLE bs <<< s.offset)
    | .bitset _, .vnat v => .ok (v <<< s.offset)   -- no range check in the source
    | .enum _, .vnat v => .ok (v <<< s.offset)     -- no membership check in the source
    | _, _ => .error .typeErr

/-- Model of `Signal.decode` (model.py lines 167-201) for the modelled metadata
kinds.  `none` models Python `None` for a signal past the payload end. -/
def sigDecode (s : SignalM) (data : Nat) (max_idx : Nat) : Option Value :=
  if s.offset > max_idx then none
  else
    let d := data >>> s.offset
    match s.meta with
    | .uint w _ _ => some (.vint ((d &&& mask w : Nat) : Int))
    | .sint w _ _ =>
        let value := d &&& mask w
        some (.vint (if value ≥ 2 ^ (w - 1)
                     then (value : Int) - (2 : Int) ^ w
                     else (value : Int)))
    | .boolean => some (.vbool (d &&& 1 ≠ 0))
    | .buffer w => some (.vbuf (toBytesLE ((w + 7) / 8) (d &&& mask w)))
    | .bitset w => some (.vnat (d &&& mask w))
    | .enum w => some (.vnat (d &&& mask w))

/-- Model of `MessageMeta` (model.py line 147). -/
structure MessageMetaM where
  device_type : Nat
  id : Nat
  min_length : Nat
  max_length : Nat
  deriving DecidableEq, Repr

/-- Model of `MessageWrapper` (model.py line 68), without the timestamp. -/
structure MessageWrapperM where
  data : Nat
  dlc : Nat
  arb_id : Nat
  deriving DecidableEq, Repr

/-- The signal-iteration loop of `BaseMessage.to_wrapper` (model.py lines
295-312): a record instance is the ordered list of `(signal, value)`
pairs obtained from the class's annotated type hints and `getattr`. -/
def packFields : List (SignalM × Value) → Nat → Nat → Nat → Except PyErr (Nat × Nat)
  | [], data, dlc, _ => .ok (data, dlc)
  | (s, v) :: rest, data, dlc, maxlen =>
    if s.optional then
      if v = .vnone then packFields rest data dlc maxlen
      else do
        let e ← sigEncode s v
        packFields rest (data ||| e) maxlen maxlen
    else do
      let e ← sigEncode s v
      packFields rest (data ||| e) dlc maxlen

/-- Model of `BaseMessage.to_wrapper` (model.py lines 291-313). -/
def to_wrapper (meta : MessageMetaM) (fields : List (SignalM × Value))
    (dev_id : Nat) (device_type : Option Nat) : Except PyErr MessageWrapperM := do
  let dt := unwrap_or device_type meta.device_type
  let (data, dlc) ← packFields fields 0 meta.min_length meta.max_length
  .ok ⟨data, dlc, (dt <<< 24) ||| (0xe <<< 16) ||| (meta.id <<< 6) ||| dev_id⟩

/-! ## Frame addressing (`device.py`) -/

/-- Model of `REDUX_CAN_VENDOR_ID` (device.py). -/
def REDUX_CAN_VENDOR_ID : Nat := 0xE

/-- Model of `CANDevice.addr` (device.py lines 20-22). -/
def addr (device_type : Nat) (api_index : Nat) (dev_id : Nat) : Nat :=
  ((device_type &&& 0x1F) <<< 24) ||| ((REDUX_CAN_VENDOR_ID &&& 0xFF) <<< 16) |||
    ((api_index &&& 0xFF) <<< 6) ||| (dev_id &&& 0x3F)

/-- The arbitration-id test of `BaseDevice.decode_msg_generic`
(model.py line 378). -/
def decodeMsgIdMatches (device_type : Nat) (arb_id : Nat) : Bool :=
  (arb_id &&& 0x1fff0000) = ((device_type <<< 24) ||| (0xe <<< 16))

/-- The message-id extraction of `BaseDevice.decode_msg_generic`
(model.py line 380). -/
def decodeMsgId (arb_id : Nat) : Nat := (arb_id >>> 6) &&& 0xff

/-- Spec §4.4 reverse masking: decompose the 29-bit identifier into its
sub-fields with the same masks the composition uses. -/
def addrDecompose (arb_id : Nat) : Nat × Nat × Nat × Nat :=
  ((arb_id >>> 24) &&& 0x1F, (arb_id >>> 16) &&& 0xFF,
    (arb_id >>> 6) &&& 0x3FF, arb_id &&& 0x3F)

/-! ## Float paths (`Signal.encode`/`Signal.decode`, `Float` case)

These are modelled at the IEEE-754 bit-pattern level: `struct.pack("<f",
v)` is represented by the binary32 bit pattern `b32 : Nat` of the finite
double `v` (a 4-byte little-endian string is identified with the `Nat` it
encodes), and `struct.unpack` by the bit pattern handed to it. -/

/-- Model of `Signal.encode`, `Float` case, width 24 (model.py line 256):
`int.from_bytes(struct.pack("<f", value), 'little') >> 8`, as a function
of the binary32 bit pattern of `value`. -/
def float24EncodeBits (b32 : Nat) : Nat := b32 >>> 8

/-- Model of `Signal.decode`, `Float` case, width 24 (model.py lines 182-186): the
extracted field bits are masked to 24 bits, shifted left by 8 (line 185),
then — in the argument of `to_bytes` on line 186 — shifted left by 8 a
second time.  `(data << 8).to_bytes(4, 'little')` raises `OverflowError`
whenever the value does not fit 4 bytes.  Returns the binary32 bit
pattern handed to `struct.unpack`. -/
def float24DecodeBits (field : Nat) : Except PyErr Nat :=
  let data := (field &&& 0xffffff) <<< 8
  if data <<< 8 < 2 ^ 32 then .ok (data <<< 8) else .error .overflowErr

/-- Modelled from the spec: the decode semantics §4.3/§8.6 claim — the 24
extracted bits left-shifted by exactly 8 and reinterpreted as binary32.
(The source's decode path, `float24DecodeBits`, differs.) -/
def float24DecodeBitsSpec (field : Nat) : Nat := (field &&& 0xffffff) <<< 8

/-- Model of `Signal.encode`, `Float` case, bounds checks (model.py lines
243-252), for a finite value.  The finite-double value domain is embedded
into `ℚ` (IEEE-754 comparisons on finite doubles agree with the rational
order).  Since the value is finite, the `math.isfinite` guard on line 245
passes for every `allow_nan_inf`.  Line 248 checks `value < meta.min`;
line 251 checks `value > meta.min` (sic — the guard is on `meta.max` but
the comparison reads `meta.min`; comparing a float to `None` raises
`TypeError`). -/
def floatBoundsCheck (min? max? : Option ℚ) (v : ℚ) : Except PyErr Unit := do
  match min? with
  | some m => if v < m then .error .outOfRange else pure ()
  | none => pure ()
  match max? with
  | some _ =>
      match min? with
      | some m => if v > m then .error .outOfRange else pure ()
      | none => .error .typeErr
  | none => pure ()

/-! ## Spec loader and inheritance resolver
(`canandmessage_parser/__init__.py`, `toml_defs.py`, `model_impl.py`)

Python `dict`s are modelled as association lists with Python-dict
semantics: insertion keeps order, assigning an existing key replaces its
value in place, `d.update(other)` assigns every pair of `other` in
order.  Lookup takes the first (unique) matching key. -/

def dictLookup {α : Type} (d : List (String × α)) (k : String) : Option α :=
  (d.find? (fun p => p.1 = k)).map (·.2)

/-- Python `d[k] = v`. -/
def dictInsert {α : Type} (d : List (String × α)) (k : String) (v : α) :
    List (String × α) :=
  if (d.find? (fun p => p.1 = k)).isSome then
    d.map (fun p => if p.1 = k then (k, v) else p)
  else d ++ [(k, v)]

/-- Python `d.update(other)`. -/
def dictUpdate {α : Type} (d other : List (String × α)) : List (String × α) :=
  other.foldl (fun acc p => dictInsert acc p.1 p.2) d

/-- Model of `EnumEntrySpec` (toml_defs.py). -/
structure EnumEntrySpec where
  id : Nat
  comment : String
  deriving DecidableEq, Repr

/-- Model of `EnumSpec` (toml_defs.py). -/
structure EnumSpec where
  comment : String
  btype : String
  bits : Nat
  is_public : Bool
  default_value : String
  values : List (String × EnumEntrySpec)
  deriving DecidableEq, Repr

/-- Model of `DeviceSettingSpec` (toml_defs.py); fields the resolver and enum
synthesis do not read (`dtype`, `default_value`, the boolean flags,
`special_flags`) are omitted. -/
structure DeviceSettingSpec where
  id : Nat
  comment : String
  deriving DecidableEq, Repr

/-- Model of `SettingCommandSpec` (toml_defs.py); `vendordep` omitted (unread by
the resolver and enum synthesis). -/
structure SettingCommandSpec where
  id : Nat
  comment : String
  deriving DecidableEq, Repr

/-- Model of `VendordepSpec` (toml_defs.py). -/
structure VendordepSpec where
  java_package : String
  cpp_namespace : String
  deriving DecidableEq, Repr

/-- Model of `DeviceSpec` (toml_defs.py).  The `msg` and `types` maps take part in
the merge exactly like `settings`; their entry payloads are irrelevant to
the claims settled here and are left out together with `is_public`. -/
structure DeviceSpec where
  name : String
  base : List String
  arch : String
  dev_type : Nat
  dev_class : Nat
  settings : List (String × DeviceSettingSpec)
  enums : List (String × EnumSpec)
  setting_commands : List (String × SettingCommandSpec)
  vendordep : Option VendordepSpec
  deriving DecidableEq, Repr

/-- One iteration of the `for base in dev_spec.base` loop of `parse_spec`
(`__init__.py` lines 286-303): merge `upper_dev` into the freshly loaded
`base_spec` and continue with the result. -/
def mergeStep (upper_dev base_spec : DeviceSpec) : DeviceSpec :=
  { base_spec with
    arch := upper_dev.arch
    base := upper_dev.base.foldl
      (fun bs n => if n ∈ bs then bs else bs ++ [n]) base_spec.base
    dev_class := upper_dev.dev_class
    dev_type := upper_dev.dev_type
    name := upper_dev.name
    enums := dictUpdate base_spec.enums upper_dev.enums
    settings := dictUpdate base_spec.settings upper_dev.settings
    setting_commands :=
      dictUpdate base_spec.setting_commands upper_dev.setting_commands
    vendordep := upper_dev.vendordep }

/-- The synthesized `SETTING` enum spec (`__init__.py` lines 305-311):
`EnumSpec.from_dict` fills `comment` with its empty default. -/
def synthSettingEnum (settings : List (String × DeviceSettingSpec)) : EnumSpec :=
  { comment := "", btype := "uint", bits := 8, is_public := true
    default_value := ""
    values := settings.map (fun p => (p.1, ⟨p.2.id, p.2.comment⟩)) }

/-- The synthesized `SETTING_COMMAND` enum spec (`__init__.py` lines
312-318). -/
def synthSettingCommandEnum (cmds : List (String × SettingCommandSpec)) : EnumSpec :=
  { comment := "", btype := "uint", bits := 8, is_public := true
    default_value := ""
    values := cmds.map (fun p => (p.1, ⟨p.2.id, p.2.comment⟩)) }

/-- Model of `parse_spec` (`__init__.py` lines 277-320) after TOML loading: the
file system is abstracted as `loader`, mapping a lowercased base name to
its parsed `DeviceSpec` (a missing base file would abort the whole
pipeline; we model the successful runs). -/
def parse_spec (loader : String → DeviceSpec) (dev_spec : DeviceSpec) : DeviceSpec :=
  let dev := dev_spec.base.foldl
    (fun upper_dev b => mergeStep upper_dev (loader b.toLower)) dev_spec
  let dev := { dev with
    enums := dictInsert dev.enums "SETTING" (synthSettingEnum dev.settings) }
  { dev with
    enums := dictInsert dev.enums "SETTING_COMMAND"
      (synthSettingCommandEnum dev.setting_commands) }

/-- Model of `EnumEntry` (canandmessage_parser/__init__.py). -/
structure EnumEntry where
  name : String
  comment : String
  index : Nat
  deriving DecidableEq, Repr

/-- Model of `EnumMeta` (canandmessage_parser/__init__.py); the `values` dict is
keyed by the entry id. -/
structure EnumMeta where
  name : String
  width : Nat
  default_value : String
  default_value_idx : Nat
  is_public : Bool
  values : List (Nat × EnumEntry)
  deriving DecidableEq, Repr

/-- Python `d[k] = v` for a `Nat`-keyed dict (the id-keyed comprehension
in `impl_EnumMeta_from`). -/
def dictInsertNat {α : Type} (d : List (Nat × α)) (k : Nat) (v : α) :
    List (Nat × α) :=
  if (d.find? (fun p => p.1 = k)).isSome then
    d.map (fun p => if p.1 = k then (k, v) else p)
  else d ++ [(k, v)]

/-- Model of `impl_EnumMeta_from` (model_impl.py lines 164-188).  Python's
`default_value or entry.default_value` falls through to the entry's
default when the argument is `None` **or** the empty string. -/
def impl_EnumMeta_from (name : String) (entry : EnumSpec)
    (default_value : Option String) : Except PyErr EnumMeta :=
  let dv := match default_value with
    | some s => if s = "" then entry.default_value else s
    | none => entry.default_value
  let checked : Except PyErr (String × Nat) :=
    match dictLookup entry.values dv with
    | none =>
        if name = "SETTING" ∨ name = "SETTING_COMMAND" then .ok ("", 0)
        else .error .outOfRange  -- panic(ValueError("invalid enum default value"))
    | some ent => .ok (dv, ent.id)
  checked.map (fun (p : String × Nat) =>
    { name := name, width := entry.bits, default_value := p.1
      default_value_idx := p.2, is_public := entry.is_public
      values := entry.values.foldl
        (fun acc q => dictInsertNat acc q.2.id ⟨q.1, q.2.comment, q.2.id⟩) [] })

/-! # Theorems

General helper lemmas first, then one theorem per claim. -/

theorem land_mask_eq_mod (x w : Nat) : x &&& mask w = x % 2 ^ w := by
  have h : mask w = 2 ^ w - 1 := by
    simp [mask, Nat.shiftLeft_eq]
  rw [h, Nat.and_pow_two_sub_one_eq_mod]

theorem shiftLeft_shiftRight_cancel (a k : Nat) : (a <<< k) >>> k = a := by
  rw [Nat.shiftLeft_eq, Nat.shiftRight_eq_div_pow]
  exact Nat.mul_div_cancel a (Nat.pos_pow_of_pos k (by norm_num))

theorem and_shiftLeft_mask (x m k : Nat) :
    x &&& (m <<< k) = ((x >>> k) &&& m) <<< k := by
  apply Nat.eq_of_testBit_eq
  intro i
  simp only [Nat.testBit_and, Nat.testBit_shiftLeft, Nat.testBit_shiftRight]
  by_cases h : k ≤ i
  · have : k + (i - k) = i := by omega
    simp [h, this]
  · simp [h]

theorem and31_eq (x : Nat) : x &&& 31 = x % 32 := by
  have h := Nat.and_pow_two_sub_one_eq_mod x 5
  norm_num at h
  exact h

theorem and63_eq (x : Nat) : x &&& 63 = x % 64 := by
  have h := Nat.and_pow_two_sub_one_eq_mod x 6
  norm_num at h
  exact h

theorem and255_eq (x : Nat) : x &&& 255 = x % 256 := by
  have h := Nat.and_pow_two_sub_one_eq_mod x 8
  norm_num at h
  exact h

theorem and1023_eq (x : Nat) : x &&& 1023 = x % 1024 := by
  have h := Nat.and_pow_two_sub_one_eq_mod x 10
  norm_num at h
  exact h

theorem and8191_eq (x : Nat) : x &&& 8191 = x % 8192 := by
  have h := Nat.and_pow_two_sub_one_eq_mod x 13
  norm_num at h
  exact h

theorem addr_sum (dt mid did : Nat) (hdt : dt < 32) (hmid : mid < 256)
    (hdid : did < 64) :
    addr dt mid did = dt * 16777216 + 917504 + mid * 64 + did := by
  unfold addr REDUX_CAN_VENDOR_ID
  have h1 : dt &&& 0x1F = dt := by rw [and31_eq, Nat.mod_eq_of_lt hdt]
  have h2 : (0xE : Nat) &&& 0xFF = 0xE := by decide
  have h3 : mid &&& 0xFF = mid := by rw [and255_eq, Nat.mod_eq_of_lt hmid]
  have h4 : did &&& 0x3F = did := by rw [and63_eq, Nat.mod_eq_of_lt hdid]
  rw [h1, h2, h3, h4, Nat.shiftLeft_eq, Nat.shiftLeft_eq, Nat.shiftLeft_eq]
  have hAB : dt * 2 ^ 24 ||| 14 * 2 ^ 16 = 2 ^ 24 * dt + 14 * 2 ^ 16 := by
    rw [Nat.mul_comm dt]
    exact (Nat.mul_add_lt_is_or (by norm_num) dt).symm
  have hABC : 2 ^ 24 * dt + 14 * 2 ^ 16 ||| mid * 2 ^ 6
      = 2 ^ 16 * (2 ^ 8 * dt + 14) + mid * 2 ^ 6 := by
    have he : 2 ^ 24 * dt + 14 * 2 ^ 16 = 2 ^ 16 * (2 ^ 8 * dt + 14) := by ring
    rw [he]
    exact (Nat.mul_add_lt_is_or (by omega) (2 ^ 8 * dt + 14)).symm
  have hABCD : 2 ^ 16 * (2 ^ 8 * dt + 14) + mid * 2 ^ 6 ||| did
      = 2 ^ 6 * (2 ^ 18 * dt + 14 * 2 ^ 10 + mid) + did := by
    have he : 2 ^ 16 * (2 ^ 8 * dt + 14) + mid * 2 ^ 6
        = 2 ^ 6 * (2 ^ 18 * dt + 14 * 2 ^ 10 + mid) := by ring
    rw [he]
    exact (Nat.mul_add_lt_is_or (by omega) _).symm
  rw [hAB, hABC, hABCD]
  ring

/-- C2: for every `device_type < 32`, `device_id < 64`, `message_id < 32`,
composing the 29-bit arbitration identifier with `CANDevice.addr`
(device type in bits 28..24, vendor `0x0E` in bits 23..16, the message id
through the api-index field at bit 6, device id in bits 5..0) and
decomposing with the §4.4 sub-field masks yields the same triple; the
`decode_msg_generic` device-type/vendor test and message-id extraction
agree; and the concrete fixture `dev_type=7, device_id=3, message_id=31`
composes to `0x070E07C3`. -/
theorem addr_compose_decompose (dt did mid : Nat)
    (hdt : dt < 32) (hdid : did < 64) (hmid : mid < 32) :
    addrDecompose (addr dt mid did) = (dt, 0xE, mid, did) ∧
    decodeMsgIdMatches dt (addr dt mid did) = true ∧
    decodeMsgId (addr dt mid did) = mid ∧
    addr 7 31 3 = 0x070E07C3 := by
  have hs := addr_sum dt mid did hdt (by omega) hdid
  refine ⟨?_, ?_, ?_, by decide⟩
  · unfold addrDecompose
    rw [hs]
    simp only [Nat.shiftRight_eq_div_pow, and31_eq, and255_eq, and1023_eq,
      and63_eq, Prod.mk.injEq]
    norm_num
    omega
  · unfold decodeMsgIdMatches
    rw [hs]
    simp only [decide_eq_true_eq]
    have hm : (0x1fff0000 : Nat) = 8191 <<< 16 := by decide
    rw [hm, and_shiftLeft_mask]
    have hhi : (dt * 16777216 + 917504 + mid * 64 + did) >>> 16 = dt * 256 + 14 := by
      rw [Nat.shiftRight_eq_div_pow]
      norm_num
      omega
    rw [hhi, and8191_eq, Nat.mod_eq_of_lt (by omega)]
    have hrhs : dt <<< 24 ||| 0xe <<< 16 = (dt * 256 + 14) * 2 ^ 16 := by
      rw [Nat.shiftLeft_eq, Nat.shiftLeft_eq]
      have : dt * 2 ^ 24 ||| 14 * 2 ^ 16 = 2 ^ 24 * dt + 14 * 2 ^ 16 := by
        rw [Nat.mul_comm dt]
        exact (Nat.mul_add_lt_is_or (by norm_num) dt).symm
      rw [this]
      ring
    rw [hrhs, Nat.shiftLeft_eq]
  · unfold decodeMsgId
    rw [hs]
    rw [Nat.shiftRight_eq_div_pow, and255_eq]
    norm_num
    omega

/-- Witness for `addr_compose_decompose` at `dt=7, did=3, mid=31`. -/
theorem addr_compose_decompose_witness :
    addrDecompose (addr 7 31 3) = (7, 0xE, 31, 3) ∧
    decodeMsgIdMatches 7 (addr 7 31 3) = true ∧
    decodeMsgId (addr 7 31 3) = 31 ∧
    addr 7 31 3 = 0x070E07C3 :=
  addr_compose_decompose 7 3 31 (by decide) (by decide) (by decide)

/-- C1 (code bug): `0x3F800000` is the IEEE-754 binary32 bit pattern of
the finite double `1.0`.  Encoding it as a 24-bit float field and
decoding that field back does **not** reinterpret the 24 extracted bits
left-shifted by exactly 8: the source shifts by 8 twice (model.py lines
185-186), so `to_bytes(4, 'little')` overflows and decode raises
`OverflowError` instead of returning `1.0`.  The single-shift semantics
the claim states would return exactly the original pattern with its low
8 bits zeroed. -/
theorem float24_decode_double_shift_bug :
    float24DecodeBits (float24EncodeBits 0x3F800000) = .error .overflowErr ∧
    float24DecodeBitsSpec (float24EncodeBits 0x3F800000)
      = 0x3F800000 &&& 0xFFFFFF00 := by
  exact ⟨rfl, by decide⟩

/-- C5 (code bug): for a `Float` signal with `min = 0.0` and
`max = 10.0`, encoding the finite in-range value `5.0` raises
`OutOfRange` ("greater than maximum"), because model.py line 251
compares `value > meta.min` where the guard (and the error message)
concern `meta.max`.  The claim requires success for every finite
`min ≤ v ≤ max`. -/
theorem float_bounds_check_bug :
    floatBoundsCheck (some 0) (some 10) 5 = .error .outOfRange ∧
    (0 : ℚ) ≤ 5 ∧ (5 : ℚ) ≤ 10 := by
  refine ⟨rfl, by norm_num, by norm_num⟩

/-- C4: for a `UInt{w}` or `SInt{w}` signal with explicit `[min, max]`
bounds, encode raises `OutOfRange` exactly when the supplied integer lies
outside `[min, max]`; an in-range value is emitted as
`value & (2^w - 1)` shifted to the signal's offset, and when the declared
range additionally fits the representable range the emitted bits equal
the value itself (no truncation). -/
theorem uint_sint_explicit_bounds (w off : Nat) (mn mx v : Int) :
    (sigEncode ⟨off, .uint w (some mn) (some mx), false⟩ (.vint v)
        = .error .outOfRange ↔ ¬ (mn ≤ v ∧ v ≤ mx)) ∧
    (sigEncode ⟨off, .sint w (some mn) (some mx), false⟩ (.vint v)
        = .error .outOfRange ↔ ¬ (mn ≤ v ∧ v ≤ mx)) ∧
    (mn ≤ v ∧ v ≤ mx →
      sigEncode ⟨off, .uint w (some mn) (some mx), false⟩ (.vint v)
          = .ok (landMask v w <<< off) ∧
      sigEncode ⟨off, .sint w (some mn) (some mx), false⟩ (.vint v)
          = .ok (landMask v w <<< off)) ∧
    (0 ≤ mn → mx ≤ 2 ^ w - 1 → mn ≤ v → v ≤ mx → (landMask v w : Int) = v) := by
  refine ⟨?_, ?_, ?_, ?_⟩
  · simp only [sigEncode, unwrap_or]
    by_cases h : mn ≤ v ∧ v ≤ mx <;> simp [h]
  · simp only [sigEncode, unwrap_or]
    by_cases h : mn ≤ v ∧ v ≤ mx <;> simp [h]
  · intro h
    simp only [sigEncode, unwrap_or]
    simp [h]
  · intro h1 h2 h3 h4
    have hv0 : 0 ≤ v := le_trans h1 h3
    have hvlt : v < (2 : Int) ^ w := by
      have : (0 : Int) < 2 ^ w := by positivity
      omega
    unfold landMask
    rw [Int.emod_eq_of_lt hv0 hvlt]
    exact Int.toNat_of_nonneg hv0

/-- Witness for `uint_sint_explicit_bounds` at `w=8`, bounds `[0,255]`,
values `300` (rejected) and `5` (emitted unmasked at offset 4). -/
theorem uint_sint_explicit_bounds_witness :
    (sigEncode ⟨4, .uint 8 (some 0) (some 255), false⟩ (.vint 300)
        = .error .outOfRange) ∧
    (sigEncode ⟨4, .sint 8 (some 0) (some 255), false⟩ (.vint 300)
        = .error .outOfRange) ∧
    (sigEncode ⟨4, .uint 8 (some 0) (some 255), false⟩ (.vint 5)
        = .ok (landMask 5 8 <<< 4)) ∧
    ((landMask 5 8 : Int) = 5) :=
  ⟨(uint_sint_explicit_bounds 8 4 0 255 300).1.mpr (by norm_num),
   (uint_sint_explicit_bounds 8 4 0 255 300).2.1.mpr (by norm_num),
   ((uint_sint_explicit_bounds 8 4 0 255 5).2.2.1 (by norm_num)).1,
   (uint_sint_explicit_bounds 8 4 0 255 5).2.2.2 (by norm_num) (by norm_num)
     (by norm_num) (by norm_num)⟩

/-- C6 counterexample: for a `Buf` signal of width 8 the claimed bound is
`⌈(8+1)/8⌉ = 2` bytes, yet encoding a 2-byte string fails with
`BufferTooLong`: the source bound is `(w+7)//8 = ⌈w/8⌉ = 1`. -/
theorem buf_encode_bound_cex :
    (2 : Nat) ≤ (8 + 1 + 7) / 8 ∧
    sigEncode ⟨0, .buffer 8, false⟩ (.vbuf [0, 0]) = .error .bufferTooLong := by
  exact ⟨by norm_num, rfl⟩

/-- C6 (amended): a `Buf{w}` signal accepts a byte string exactly when
its length is at most `(w+7)/8 = ⌈w/8⌉` bytes, and fails with
`BufferTooLong` beyond that bound. -/
theorem buf_encode_bound (w off : Nat) (bs : List Nat) :
    ((∃ n, sigEncode ⟨off, .buffer w, false⟩ (.vbuf bs) = .ok n)
        ↔ bs.length ≤ (w + 7) / 8) ∧
    (bs.length > (w + 7) / 8 →
      sigEncode ⟨off, .buffer w, false⟩ (.vbuf bs) = .error .bufferTooLong) := by
  constructor
  · simp only [sigEncode]
    by_cases h : bs.length > (w + 7) / 8
    · simp [h]
    · simp [h]
      omega
  · intro h
    simp [sigEncode, h]

/-- Witness for `buf_encode_bound` at width 48 and a 7-byte string. -/
theorem buf_encode_bound_witness :
    sigEncode ⟨8, .buffer 48, false⟩ (.vbuf [1, 2, 3, 4, 5, 6, 7])
      = .error .bufferTooLong :=
  (buf_encode_bound 48 8 [1, 2, 3, 4, 5, 6, 7]).2 (by norm_num)

/-- C7 counterexample: for a `Bitset` signal of width 1, the value
`2 ≥ 2^1` is outside the claimed required range, yet encode does not
fail: the source performs no range check on bitset values. -/
theorem bitset_encode_no_check_cex :
    (2 : Nat) ≥ 2 ^ 1 ∧
    sigEncode ⟨0, .bitset 1, false⟩ (.vnat 2) = .ok 2 := by
  exact ⟨by norm_num, rfl⟩

/-- C7 (amended): `Bitset{w}` encode performs no range check — every
value `v` is accepted and emitted as `v <<< offset`; when `v < 2^w`
this contribution carries exactly the bits of `v` in the bit range
`[offset, offset+w)` and, OR-ed into any payload, leaves every bit
outside that range unchanged. -/
theorem bitset_encode_amended (w off v d : Nat) :
    sigEncode ⟨off, .bitset w, false⟩ (.vnat v) = .ok (v <<< off) ∧
    (∀ i, (v <<< off).testBit (off + i) = v.testBit i) ∧
    (v < 2 ^ w → ∀ i, i < off ∨ off + w ≤ i →
      (d ||| (v <<< off)).testBit i = d.testBit i) := by
  refine ⟨by simp [sigEncode], ?_, ?_⟩
  · intro i
    simp only [Nat.testBit_shiftLeft]
    have h : off ≤ off + i := Nat.le_add_right off i
    have h2 : off + i - off = i := by omega
    simp [h, h2]
  · intro hv i hi
    simp only [Nat.testBit_or, Nat.testBit_shiftLeft]
    rcases hi with hlt | hge
    · have : ¬ (off ≤ i) := by omega
      simp [this]
    · have hle : off ≤ i := by omega
      have hbit : v.testBit (i - off) = false := by
        apply Nat.testBit_lt_two_pow
        calc v < 2 ^ w := hv
          _ ≤ 2 ^ (i - off) := Nat.pow_le_pow_right (by norm_num) (by omega)
      simp [hle, hbit]

/-- Witness for `bitset_encode_amended` at `w=8, off=4, v=0xA5, d=7`. -/
theorem bitset_encode_amended_witness :
    sigEncode ⟨4, .bitset 8, false⟩ (.vnat 0xA5) = .ok (0xA5 <<< 4) ∧
    (0xA5 <<< 4 : Nat).testBit (4 + 2) = (0xA5 : Nat).testBit 2 ∧
    (7 ||| (0xA5 <<< 4) : Nat).testBit 2 = (7 : Nat).testBit 2 :=
  ⟨(bitset_encode_amended 8 4 0xA5 7).1,
   (bitset_encode_amended 8 4 0xA5 7).2.1 2,
   (bitset_encode_amended 8 4 0xA5 7).2.2 (by norm_num) 2 (Or.inl (by norm_num))⟩

/-- C8 counterexample: the `SInt` signal of width 4 with declared bounds
`[-100, 100]` accepts `v = 50` (it is inside the declared range), but the
encoded field decodes to `2`, not `50`: nothing validates that declared
bounds fit the representable range of the width. -/
theorem sint_roundtrip_cex :
    ((-100 : Int) ≤ 50 ∧ (50 : Int) ≤ 100) ∧
    sigEncode ⟨0, .sint 4 (some (-100)) (some 100), false⟩ (.vint 50) = .ok 2 ∧
    sigDecode ⟨0, .sint 4 (some (-100)) (some 100), false⟩ 2 64
      = some (.vint 2) ∧
    Value.vint 2 ≠ Value.vint 50 := by
  exact ⟨by norm_num, rfl, rfl, by decide⟩

theorem sigEncode_sint_eq (w off : Nat) (mn mx : Option Int) (v : Int) :
    sigEncode ⟨off, .sint w mn mx, false⟩ (.vint v)
      = if ¬ (unwrap_or mn (default_sint_min w) ≤ v ∧
              v ≤ unwrap_or mx (default_sint_max w))
        then .error .outOfRange
        else .ok (landMask v w <<< off) := rfl

theorem sigDecode_sint_eq (w off : Nat) (mn mx : Option Int)
    (data max_idx : Nat) (h : ¬ off > max_idx) :
    sigDecode ⟨off, .sint w mn mx, false⟩ data max_idx
      = some (.vint (if (data >>> off) &&& mask w ≥ 2 ^ (w - 1)
          then (((data >>> off) &&& mask w : Nat) : Int) - (2 : Int) ^ w
          else (((data >>> off) &&& mask w : Nat) : Int))) := by
  simp only [sigDecode]
  rw [if_neg h]

/-- C8 (amended): for an `SInt{w}` signal, encoding any `v` that lies
both inside the declared (or default) bounds and inside the
representable range `[-2^(w-1), 2^(w-1)-1]` and decoding the result
recovers `v` exactly — sign extension is correct; the restriction to the
representable range is forced by `sint_roundtrip_cex`. -/
theorem sint_roundtrip (w off max_idx : Nat) (mn mx : Option Int) (v : Int)
    (hw : 1 ≤ w) (hoff : off ≤ max_idx)
    (h1 : unwrap_or mn (default_sint_min w) ≤ v)
    (h2 : v ≤ unwrap_or mx (default_sint_max w))
    (h3 : -((2 : Int) ^ (w - 1)) ≤ v) (h4 : v ≤ 2 ^ (w - 1) - 1) :
    sigEncode ⟨off, .sint w mn mx, false⟩ (.vint v)
      = .ok (landMask v w <<< off) ∧
    sigDecode ⟨off, .sint w mn mx, false⟩ (landMask v w <<< off) max_idx
      = some (.vint v) := by
  constructor
  · rw [sigEncode_sint_eq, if_neg]
    push_neg
    exact ⟨h1, h2⟩
  · rw [sigDecode_sint_eq w off mn mx _ max_idx (by omega)]
    obtain ⟨P, hPdef, hP2w, hP2wN, hPpos⟩ :
        ∃ P : Nat, P = 2 ^ (w - 1) ∧ ((2 : Int) ^ w = 2 * (P : Int)) ∧
          ((2 : Nat) ^ w = 2 * P) ∧ 0 < P := by
      refine ⟨2 ^ (w - 1), rfl, ?_, ?_, by positivity⟩
      · push_cast
        rw [← pow_succ']
        congr 1
        omega
      · rw [← pow_succ']
        congr 1
        omega
    have hcast : ((P : Nat) : Int) = (2 : Int) ^ (w - 1) := by
      rw [hPdef]; push_cast; ring
    set n : Int := v % (2 : Int) ^ w with hn
    have h2wpos : (0 : Int) < 2 ^ w := by positivity
    have hn0 : 0 ≤ n := Int.emod_nonneg v (ne_of_gt h2wpos)
    have hnlt : n < 2 * (P : Int) := by rw [← hP2w]; exact Int.emod_lt_of_pos v h2wpos
    have hneq : n = v ∨ n = v + 2 * (P : Int) := by
      rcases le_or_lt 0 v with hv | hv
      · left
        exact Int.emod_eq_of_lt hv (by omega)
      · right
        have e1 : (v + 2 * (P : Int)) % (2 * (P : Int)) = v % (2 * (P : Int)) := by
          simp
        have e2 : (v + 2 * (P : Int)) % (2 * (P : Int)) = v + 2 * (P : Int) := by
          apply Int.emod_eq_of_lt (by omega) (by omega)
        rw [hn, hP2w]
        omega
    have hLn : (landMask v w : Int) = n := by
      unfold landMask
      rw [← hn]
      exact Int.toNat_of_nonneg hn0
    have hLlt : landMask v w < 2 ^ w := by
      rw [hP2wN]
      omega
    rw [shiftLeft_shiftRight_cancel, land_mask_eq_mod, Nat.mod_eq_of_lt hLlt]
    have hbr : landMask v w ≥ 2 ^ (w - 1) ↔ (P : Int) ≤ n := by
      rw [← hPdef]
      omega
    by_cases hc : landMask v w ≥ 2 ^ (w - 1)
    · rw [if_pos hc]
      have := hbr.mp hc
      rw [hLn, hP2w]
      congr 2
      omega
    · rw [if_neg hc]
      have := mt hbr.mpr hc
      rw [hLn]
      congr 2
      omega

/-- Witness for `sint_roundtrip` at `w=16`, default bounds, `v = -1`. -/
theorem sint_roundtrip_witness :
    sigEncode ⟨0, .sint 16 none none, false⟩ (.vint (-1)) = .ok (landMask (-1) 16 <<< 0) ∧
    sigDecode ⟨0, .sint 16 none none, false⟩ (landMask (-1) 16 <<< 0) 64
      = some (.vint (-1)) :=
  sint_roundtrip 16 0 64 none none (-1) (by norm_num) (by norm_num)
    (by norm_num [unwrap_or, default_sint_min, Nat.shiftLeft_eq])
    (by norm_num [unwrap_or, default_sint_max, Nat.shiftLeft_eq])
    (by norm_num) (by norm_num)

theorem toBytesLE_length (n : Nat) : ∀ x, (toBytesLE n x).length = n := by
  induction n with
  | zero => intro x; rfl
  | succ m ih =>
      intro x
      simp [toBytesLE, ih]

theorem toBytesLE_zero (n : Nat) : toBytesLE n 0 = List.replicate n 0 := by
  induction n with
  | zero => rfl
  | succ m ih =>
      simp [toBytesLE, ih, List.replicate]

theorem fromBytesLE_lt (bs : List Nat) (h : ∀ b ∈ bs, b < 256) :
    fromBytesLE bs < 2 ^ (8 * bs.length) := by
  induction bs with
  | nil => simp [fromBytesLE]
  | cons b tl ih =>
      have hb : b < 256 := h b (List.mem_cons_self b tl)
      have htl := ih (fun x hx => h x (List.mem_cons_of_mem b hx))
      simp only [fromBytesLE, List.length_cons]
      have hpow : 2 ^ (8 * (tl.length + 1)) = 256 * 2 ^ (8 * tl.length) := by
        rw [Nat.mul_add, pow_add]
        ring
      rw [hpow]
      omega

theorem toBytesLE_fromBytesLE (bs : List Nat) : ∀ n, bs.length ≤ n →
    (∀ b ∈ bs, b < 256) →
    toBytesLE n (fromBytesLE bs) = bs ++ List.replicate (n - bs.length) 0 := by
  induction bs with
  | nil =>
      intro n _ _
      simpa [fromBytesLE] using toBytesLE_zero n
  | cons b tl ih =>
      intro n hn hlt
      match n with
      | m + 1 =>
        have hb : b < 256 := hlt b (List.mem_cons_self b tl)
        have h1 : (b + 256 * fromBytesLE tl) % 256 = b := by omega
        have h2 : (b + 256 * fromBytesLE tl) / 256 = fromBytesLE tl := by omega
        simp only [fromBytesLE, toBytesLE, h1, h2]
        rw [ih m (by simpa using hn) (fun x hx => hlt x (List.mem_cons_of_mem b hx))]
        simp

theorem sigEncode_buffer_eq (w off : Nat) (bs : List Nat) :
    sigEncode ⟨off, .buffer w, false⟩ (.vbuf bs)
      = if bs.length > (w + 7) / 8 then .error .bufferTooLong
        else .ok (fromBytesLE bs <<< off) := rfl

theorem sigDecode_buffer_eq (w off data max_idx : Nat) (h : ¬ off > max_idx) :
    sigDecode ⟨off, .buffer w, false⟩ data max_idx
      = some (.vbuf (toBytesLE ((w + 7) / 8) ((data >>> off) &&& mask w))) := by
  simp only [sigDecode]
  rw [if_neg h]

/-- C10: decoding a `Buf{w}` signal that lies inside the payload always
yields exactly `⌈w/8⌉ = (w+7)/8` bytes; consequently, encoding a byte
string `b` strictly shorter than that and decoding it back yields `b`
zero-extended to `(w+7)/8` bytes, not a byte string of `b`'s original
length. -/
theorem buf_decode_length_roundtrip (w off max_idx : Nat) (hoff : off ≤ max_idx) :
    (∀ data, ∃ bs, sigDecode ⟨off, .buffer w, false⟩ data max_idx
        = some (.vbuf bs) ∧ bs.length = (w + 7) / 8) ∧
    (∀ bs : List Nat, bs.length < (w + 7) / 8 → (∀ b ∈ bs, b < 256) →
      sigEncode ⟨off, .buffer w, false⟩ (.vbuf bs)
          = .ok (fromBytesLE bs <<< off) ∧
      sigDecode ⟨off, .buffer w, false⟩ (fromBytesLE bs <<< off) max_idx
          = some (.vbuf (bs ++ List.replicate ((w + 7) / 8 - bs.length) 0))) := by
  constructor
  · intro data
    refine ⟨_, sigDecode_buffer_eq w off data max_idx (by omega), ?_⟩
    exact toBytesLE_length _ _
  · intro bs hlen hbytes
    have hlt : fromBytesLE bs < 2 ^ w := by
      have h1 := fromBytesLE_lt bs hbytes
      have h2 : 2 ^ (8 * bs.length) ≤ 2 ^ w := by
        apply Nat.pow_le_pow_right (by norm_num)
        omega
      omega
    constructor
    · rw [sigEncode_buffer_eq, if_neg (by omega)]
    · rw [sigDecode_buffer_eq w off _ max_idx (by omega),
        shiftLeft_shiftRight_cancel, land_mask_eq_mod,
        Nat.mod_eq_of_lt hlt,
        toBytesLE_fromBytesLE bs ((w + 7) / 8) (by omega) hbytes]

/-- Witness for `buf_decode_length_roundtrip` at `w=48`, `off=8`, the
3-byte string `[1,2,3]` (decode yields it padded to 6 bytes). -/
theorem buf_decode_length_roundtrip_witness :
    (∃ bs, sigDecode ⟨8, .buffer 48, false⟩ 0 64 = some (.vbuf bs) ∧
        bs.length = (48 + 7) / 8) ∧
    sigDecode ⟨8, .buffer 48, false⟩ (fromBytesLE [1, 2, 3] <<< 8) 64
      = some (.vbuf ([1, 2, 3] ++ List.replicate ((48 + 7) / 8 - 3) 0)) :=
  ⟨(buf_decode_length_roundtrip 48 8 64 (by norm_num)).1 0,
   ((buf_decode_length_roundtrip 48 8 64 (by norm_num)).2 [1, 2, 3]
      (by norm_num) (by decide)).2⟩

theorem packFields_all_null (fields : List (SignalM × Value)) :
    ∀ data dlc maxlen d2 dlc2,
      (∀ p ∈ fields, p.1.optional = true → p.2 = Value.vnone) →
      packFields fields data dlc maxlen = .ok (d2, dlc2) → dlc2 = dlc := by
  induction fields with
  | nil =>
      intro data dlc maxlen d2 dlc2 _ h
      simp [packFields] at h
      exact h.2.symm
  | cons p tl ih =>
      intro data dlc maxlen d2 dlc2 hall h
      obtain ⟨s, v⟩ := p
      by_cases hopt : s.optional = true
      · have hv : v = Value.vnone := hall (s, v) (List.mem_cons_self _ _) hopt
        simp only [packFields, hopt, hv, if_true] at h
        exact ih data dlc maxlen d2 dlc2
          (fun q hq => hall q (List.mem_cons_of_mem _ hq)) h
      · simp only [packFields, hopt, if_false, Bool.false_eq_true] at h
        cases henc : sigEncode s v with
        | error e =>
            rw [henc] at h
            simp [Bind.bind, Except.bind] at h
        | ok e =>
            rw [henc] at h
            simp only [Bind.bind, Except.bind] at h
            exact ih _ dlc maxlen d2 dlc2
              (fun q hq => hall q (List.mem_cons_of_mem _ hq)) h

theorem packFields_dlc_cases (fields : List (SignalM × Value)) :
    ∀ data dlc maxlen d2 dlc2,
      packFields fields data dlc maxlen = .ok (d2, dlc2) →
      dlc2 = dlc ∨ dlc2 = maxlen := by
  induction fields with
  | nil =>
      intro data dlc maxlen d2 dlc2 h
      simp [packFields] at h
      exact Or.inl h.2.symm
  | cons p tl ih =>
      intro data dlc maxlen d2 dlc2 h
      obtain ⟨s, v⟩ := p
      by_cases hopt : s.optional = true
      · by_cases hv : v = Value.vnone
        · simp only [packFields, hopt, hv, if_true] at h
          exact ih data dlc maxlen d2 dlc2 h
        · simp only [packFields, hopt, hv, if_true, if_false] at h
          cases henc : sigEncode s v with
          | error e =>
              rw [henc] at h
              simp [Bind.bind, Except.bind] at h
          | ok e =>
              rw [henc] at h
              simp only [Bind.bind, Except.bind] at h
              rcases ih _ maxlen maxlen d2 dlc2 h with h1 | h1
              · exact Or.inr h1
              · exact Or.inr h1
      · simp only [packFields, hopt, if_false, Bool.false_eq_true] at h
        cases henc : sigEncode s v with
        | error e =>
            rw [henc] at h
            simp [Bind.bind, Except.bind] at h
        | ok e =>
            rw [henc] at h
            simp only [Bind.bind, Except.bind] at h
            exact ih _ dlc maxlen d2 dlc2 h

theorem packFields_some_opt (fields : List (SignalM × Value)) :
    ∀ data dlc maxlen d2 dlc2,
      (∃ p ∈ fields, p.1.optional = true ∧ p.2 ≠ Value.vnone) →
      packFields fields data dlc maxlen = .ok (d2, dlc2) → dlc2 = maxlen := by
  induction fields with
  | nil =>
      intro data dlc maxlen d2 dlc2 hex _
      simp at hex
  | cons p tl ih =>
      intro data dlc maxlen d2 dlc2 hex h
      obtain ⟨s, v⟩ := p
      by_cases hopt : s.optional = true
      · by_cases hv : v = Value.vnone
        · simp only [packFields, hopt, hv, if_true] at h
          rcases hex with ⟨q, hq, hqo, hqn⟩
          rcases List.mem_cons.mp hq with hq1 | hq1
          · rw [hq1] at hqn
            exact absurd hv hqn
          · exact ih data dlc maxlen d2 dlc2 ⟨q, hq1, hqo, hqn⟩ h
        · simp only [packFields, hopt, hv, if_true, if_false] at h
          cases henc : sigEncode s v with
          | error e =>
              rw [henc] at h
              simp [Bind.bind, Except.bind] at h
          | ok e =>
              rw [henc] at h
              simp only [Bind.bind, Except.bind] at h
              rcases packFields_dlc_cases tl _ maxlen maxlen d2 dlc2 h with h1 | h1
              · exact h1
              · exact h1
      · simp only [packFields, hopt, if_false, Bool.false_eq_true] at h
        rcases hex with ⟨q, hq, hqo, hqn⟩
        rcases List.mem_cons.mp hq with hq1 | hq1
        · rw [hq1] at hqo
          exact absurd hqo hopt
        · cases henc : sigEncode s v with
          | error e =>
              rw [henc] at h
              simp [Bind.bind, Except.bind] at h
          | ok e =>
              rw [henc] at h
              simp only [Bind.bind, Except.bind] at h
              exact ih _ dlc maxlen d2 dlc2 ⟨q, hq1, hqo, hqn⟩ h

theorem packFields_filter_null_opt (fields : List (SignalM × Value)) :
    ∀ data dlc maxlen,
      packFields (fields.filter
          (fun p => !(p.1.optional && (p.2 == Value.vnone)))) data dlc maxlen
        = packFields fields data dlc maxlen := by
  induction fields with
  | nil => intro data dlc maxlen; rfl
  | cons p tl ih =>
      intro data dlc maxlen
      obtain ⟨s, v⟩ := p
      by_cases hopt : s.optional = true
      · by_cases hv : v = Value.vnone
        · have hpred : (!(s.optional && (v == Value.vnone))) = false := by
            simp [hopt, hv]
          rw [List.filter_cons]
          simp only [hpred, Bool.false_eq_true, if_false]
          rw [ih]
          conv_rhs => rw [packFields]
          simp [hopt, hv]
        · have hpred : (!(s.optional && (v == Value.vnone))) = true := by
            simp [hopt, hv]
          rw [List.filter_cons]
          simp only [hpred, if_true]
          rw [packFields, packFields]
          simp only [hopt, hv, if_true, if_false]
          cases henc : sigEncode s v with
          | error e => simp [Bind.bind, Except.bind]
          | ok e => simp only [Bind.bind, Except.bind, ih]
      · have hpred : (!(s.optional && (v == Value.vnone))) = true := by
          simp [Bool.not_eq_true] at hopt
          simp [hopt]
        rw [List.filter_cons]
        simp only [hpred, if_true]
        rw [packFields, packFields]
        simp only [hopt, if_false, Bool.false_eq_true]
        cases henc : sigEncode s v with
        | error e => simp [Bind.bind, Except.bind]
        | ok e => simp only [Bind.bind, Except.bind, ih]

/-- C3: whenever `to_wrapper` produces a frame, its DLC is `min_length`
if every optional signal's value is null, and `max_length` as soon as
any optional signal carries a non-null value; dropping the null optional
signals from the record changes nothing about the produced frame (they
contribute no bits to the payload). -/
theorem to_wrapper_dlc_optional (meta : MessageMetaM)
    (fields : List (SignalM × Value)) (dev_id : Nat) (dty : Option Nat)
    (w : MessageWrapperM)
    (hok : to_wrapper meta fields dev_id dty = .ok w) :
    ((∀ p ∈ fields, p.1.optional = true → p.2 = Value.vnone) →
      w.dlc = meta.min_length) ∧
    ((∃ p ∈ fields, p.1.optional = true ∧ p.2 ≠ Value.vnone) →
      w.dlc = meta.max_length) ∧
    to_wrapper meta (fields.filter
        (fun p => !(p.1.optional && (p.2 == Value.vnone)))) dev_id dty
      = .ok w := by
  unfold to_wrapper at hok ⊢
  cases hpf : packFields fields 0 meta.min_length meta.max_length with
  | error e =>
      rw [hpf] at hok
      simp [Bind.bind, Except.bind] at hok
  | ok pr =>
      obtain ⟨d, dl⟩ := pr
      rw [hpf] at hok
      simp only [Bind.bind, Except.bind, Except.ok.injEq] at hok
      refine ⟨?_, ?_, ?_⟩
      · intro hall
        rw [← hok]
        exact packFields_all_null fields 0 meta.min_length meta.max_length d dl
          hall hpf
      · intro hex
        rw [← hok]
        exact packFields_some_opt fields 0 meta.min_length meta.max_length d dl
          hex hpf
      · rw [packFields_filter_null_opt fields 0 meta.min_length meta.max_length,
          hpf]
        simp only [Bind.bind, Except.bind, Except.ok.injEq]
        exact hok

/-- Witness for `to_wrapper_dlc_optional`: a two-signal message of
minimum length 1 and maximum length 8 whose trailing signal is optional,
once with the optional null (dlc 1) and once populated (dlc 8). -/
theorem to_wrapper_dlc_optional_witness :
    MessageWrapperM.dlc ⟨2, 1, 68026569⟩ = 1 ∧
    MessageWrapperM.dlc ⟨1538, 8, 68026569⟩ = 8 :=
  ⟨(to_wrapper_dlc_optional ⟨4, 3, 1, 8⟩
      [(⟨0, .uint 8 (some 0) (some 255), false⟩, .vint 2),
       (⟨8, .enum 8, true⟩, .vnone)] 9 none ⟨2, 1, 68026569⟩ rfl).1
      (by decide),
   (to_wrapper_dlc_optional ⟨4, 3, 1, 8⟩
      [(⟨0, .uint 8 (some 0) (some 255), false⟩, .vint 2),
       (⟨8, .enum 8, true⟩, .vnat 6)] 9 none ⟨1538, 8, 68026569⟩ rfl).2.1
      ⟨(⟨8, .enum 8, true⟩, .vnat 6), by decide, by decide, by decide⟩⟩

theorem dictInsert_map_pred {α : Type} (d : List (String × α)) (k k2 : String)
    (v : α) :
    (d.map (fun p => if p.1 = k2 then (k2, v) else p)).find?
        (fun p => p.1 = k)
      = (d.find? (fun p => p.1 = k)).map
          (fun p => if p.1 = k2 then (k2, v) else p) := by
  rw [List.find?_map]
  have hfun : ((fun p => decide (p.1 = k)) ∘
        fun p : String × α => if p.1 = k2 then (k2, v) else p)
      = (fun p : String × α => decide (p.1 = k)) := by
    funext p
    by_cases hp : p.1 = k2
    · simp [Function.comp, hp]
    · simp [Function.comp, hp]
  rw [hfun]

theorem dictLookup_dictInsert_self {α : Type} (d : List (String × α))
    (k : String) (v : α) : dictLookup (dictInsert d k v) k = some v := by
  unfold dictInsert dictLookup
  by_cases hf : (d.find? (fun p => p.1 = k)).isSome
  · simp only [hf, if_true]
    rw [dictInsert_map_pred]
    cases hdf : d.find? (fun p => p.1 = k) with
    | none => rw [hdf] at hf; simp at hf
    | some q =>
        have hq : q.1 = k := by simpa using List.find?_some hdf
        simp [hq]
  · simp only [hf, if_false, Bool.false_eq_true]
    rw [List.find?_append]
    have hnone : d.find? (fun p => p.1 = k) = none := by
      cases hdf : d.find? (fun p => p.1 = k) with
      | none => rfl
      | some q => rw [hdf] at hf; simp at hf
    rw [hnone]
    simp

theorem dictLookup_dictInsert_ne {α : Type} (d : List (String × α))
    (k k2 : String) (v : α) (h : k ≠ k2) :
    dictLookup (dictInsert d k2 v) k = dictLookup d k := by
  unfold dictInsert dictLookup
  by_cases hf : (d.find? (fun p => p.1 = k2)).isSome
  · simp only [hf, if_true]
    rw [dictInsert_map_pred]
    cases hdf : d.find? (fun p => p.1 = k) with
    | none => simp
    | some q =>
        have hq : q.1 = k := by simpa using List.find?_some hdf
        have hq2 : ¬ q.1 = k2 := by rw [hq]; exact h
        simp [hq2]
  · simp only [hf, if_false, Bool.false_eq_true]
    rw [List.find?_append]
    have hone : ([(k2, v)].find? (fun p => p.1 = k)) = none := by
      simp
      exact fun hh => h hh.symm
    rw [hone]
    simp

theorem impl_EnumMeta_from_synth (name : String) (E : EnumSpec)
    (hname : name = "SETTING" ∨ name = "SETTING_COMMAND")
    (hdv : E.default_value = "")
    (hlook : dictLookup E.values "" = none) :
    impl_EnumMeta_from name E none = .ok
      { name := name, width := E.bits, default_value := "",
        default_value_idx := 0, is_public := E.is_public,
        values := E.values.foldl
          (fun acc q => dictInsertNat acc q.2.id ⟨q.1, q.2.comment, q.2.id⟩)
          [] } := by
  unfold impl_EnumMeta_from
  rw [hdv]
  dsimp only
  rw [hlook]
  rcases hname with h | h
  · simp [h, Except.map]
  · simp [h, Except.map]

theorem impl_EnumMeta_from_rejects (name : String) (E : EnumSpec)
    (h1 : name ≠ "SETTING") (h2 : name ≠ "SETTING_COMMAND")
    (hdv : E.default_value = "")
    (hlook : dictLookup E.values "" = none) :
    impl_EnumMeta_from name E none = .error .outOfRange := by
  unfold impl_EnumMeta_from
  rw [hdv]
  dsimp only
  rw [hlook]
  simp [h1, h2, Except.map]

/-- C9: for every input spec (and any base chain the loader resolves),
the resolved spec's enum map binds `SETTING` and `SETTING_COMMAND` to
freshly synthesized 8-bit public `uint` enums with empty default name,
whose entries are exactly the `(name, id, comment)` of every resolved
setting / setting command, regardless of the base specs' original enum
sets; lowering these two enums tolerates the empty default name and
assigns default index 0 (provided no setting is literally named with the
empty string), while any other enum with an empty default naming no
entry is rejected. -/
theorem setting_enums_synthesized (loader : String → DeviceSpec)
    (root : DeviceSpec)
    (hset : ∀ p ∈ (parse_spec loader root).settings, p.1 ≠ "")
    (hcmd : ∀ p ∈ (parse_spec loader root).setting_commands, p.1 ≠ "") :
    dictLookup (parse_spec loader root).enums "SETTING"
      = some (synthSettingEnum (parse_spec loader root).settings) ∧
    dictLookup (parse_spec loader root).enums "SETTING_COMMAND"
      = some (synthSettingCommandEnum (parse_spec loader root).setting_commands) ∧
    (synthSettingEnum (parse_spec loader root).settings).btype = "uint" ∧
    (synthSettingEnum (parse_spec loader root).settings).bits = 8 ∧
    (synthSettingEnum (parse_spec loader root).settings).is_public = true ∧
    (synthSettingEnum (parse_spec loader root).settings).default_value = "" ∧
    (synthSettingEnum (parse_spec loader root).settings).values
      = (parse_spec loader root).settings.map
          (fun p => (p.1, ⟨p.2.id, p.2.comment⟩)) ∧
    (synthSettingCommandEnum (parse_spec loader root).setting_commands).values
      = (parse_spec loader root).setting_commands.map
          (fun p => (p.1, ⟨p.2.id, p.2.comment⟩)) ∧
    (∃ m, impl_EnumMeta_from "SETTING"
        (synthSettingEnum (parse_spec loader root).settings) none = .ok m ∧
      m.default_value = "" ∧ m.default_value_idx = 0 ∧ m.width = 8 ∧
      m.is_public = true) ∧
    (∃ m, impl_EnumMeta_from "SETTING_COMMAND"
        (synthSettingCommandEnum (parse_spec loader root).setting_commands) none
        = .ok m ∧
      m.default_value = "" ∧ m.default_value_idx = 0 ∧ m.width = 8 ∧
      m.is_public = true) ∧
    (∀ nm (entry : EnumSpec), nm ≠ "SETTING" → nm ≠ "SETTING_COMMAND" →
      entry.default_value = "" → dictLookup entry.values "" = none →
      impl_EnumMeta_from nm entry none = .error .outOfRange) := by
  have hlookS : dictLookup
      (synthSettingEnum (parse_spec loader root).settings).values "" = none := by
    unfold synthSettingEnum dictLookup
    rw [List.find?_map]
    rw [List.find?_eq_none.mpr]
    · rfl
    · intro x hx
      simpa using hset x hx
  have hlookC : dictLookup
      (synthSettingCommandEnum
        (parse_spec loader root).setting_commands).values "" = none := by
    unfold synthSettingCommandEnum dictLookup
    rw [List.find?_map]
    rw [List.find?_eq_none.mpr]
    · rfl
    · intro x hx
      simpa using hcmd x hx
  refine ⟨?_, ?_, rfl, rfl, rfl, rfl, rfl, rfl, ?_, ?_, ?_⟩
  · rw [show (parse_spec loader root).enums
        = dictInsert
            (dictInsert
              ((root.base.foldl
                (fun u b => mergeStep u (loader b.toLower)) root)).enums
              "SETTING"
              (synthSettingEnum (parse_spec loader root).settings))
            "SETTING_COMMAND"
            (synthSettingCommandEnum
              (parse_spec loader root).setting_commands) from rfl]
    rw [dictLookup_dictInsert_ne _ _ _ _ (by decide)]
    exact dictLookup_dictInsert_self _ _ _
  · rw [show (parse_spec loader root).enums
        = dictInsert
            (dictInsert
              ((root.base.foldl
                (fun u b => mergeStep u (loader b.toLower)) root)).enums
              "SETTING"
              (synthSettingEnum (parse_spec loader root).settings))
            "SETTING_COMMAND"
            (synthSettingCommandEnum
              (parse_spec loader root).setting_commands) from rfl]
    exact dictLookup_dictInsert_self _ _ _
  · exact ⟨_, impl_EnumMeta_from_synth "SETTING" _ (Or.inl rfl) rfl hlookS,
      rfl, rfl, rfl, rfl⟩
  · exact ⟨_, impl_EnumMeta_from_synth "SETTING_COMMAND" _ (Or.inr rfl) rfl
      hlookC, rfl, rfl, rfl, rfl⟩
  · intro nm entry h1 h2 hdv hlook
    exact impl_EnumMeta_from_rejects nm entry h1 h2 hdv hlook

/-- Witness for `setting_enums_synthesized`: a root spec inheriting from
one base whose enum map already contains a stale `SETTING` entry; after
resolution the synthesized `SETTING` (entries = the merged settings) and
`SETTING_COMMAND` enums are bound regardless. -/
theorem setting_enums_synthesized_witness :
    dictLookup (parse_spec
        (fun _ => ⟨"base", [], "", 0, 0,
          [("EXTRA", ⟨5, "extra"⟩)],
          [("SETTING", ⟨"", "uint", 4, true, "X", [("X", ⟨3, "x"⟩)]⟩)],
          [], none⟩)
        ⟨"gizmo", ["base"], "arm", 7, 1,
          [("CAN_ID", ⟨0, "can id"⟩)], [], [("COMMIT", ⟨1, "commit"⟩)],
          none⟩).enums "SETTING"
      = some (synthSettingEnum (parse_spec
        (fun _ => ⟨"base", [], "", 0, 0,
          [("EXTRA", ⟨5, "extra"⟩)],
          [("SETTING", ⟨"", "uint", 4, true, "X", [("X", ⟨3, "x"⟩)]⟩)],
          [], none⟩)
        ⟨"gizmo", ["base"], "arm", 7, 1,
          [("CAN_ID", ⟨0, "can id"⟩)], [], [("COMMIT", ⟨1, "commit"⟩)],
          none⟩).settings) ∧
    (∃ m, impl_EnumMeta_from "SETTING"
        (synthSettingEnum (parse_spec
          (fun _ => ⟨"base", [], "", 0, 0,
            [("EXTRA", ⟨5, "extra"⟩)],
            [("SETTING", ⟨"", "uint", 4, true, "X", [("X", ⟨3, "x"⟩)]⟩)],
            [], none⟩)
          ⟨"gizmo", ["base"], "arm", 7, 1,
            [("CAN_ID", ⟨0, "can id"⟩)], [], [("COMMIT", ⟨1, "commit"⟩)],
            none⟩).settings) none = .ok m ∧
      m.default_value = "" ∧ m.default_value_idx = 0 ∧ m.width = 8 ∧
      m.is_public = true) :=
  ⟨(setting_enums_synthesized
      (fun _ => ⟨"base", [], "", 0, 0,
        [("EXTRA", ⟨5, "extra"⟩)],
        [("SETTING", ⟨"", "uint", 4, true, "X", [("X", ⟨3, "x"⟩)]⟩)],
        [], none⟩)
      ⟨"gizmo", ["base"], "arm", 7, 1,
        [("CAN_ID", ⟨0, "can id"⟩)], [], [("COMMIT", ⟨1, "commit"⟩)],
        none⟩ (by decide) (by decide)).1,
   (setting_enums_synthesized
      (fun _ => ⟨"base", [], "", 0, 0,
        [("EXTRA", ⟨5, "extra"⟩)],
        [("SETTING", ⟨"", "uint", 4, true, "X", [("X", ⟨3, "x"⟩)]⟩)],
        [], none⟩)
      ⟨"gizmo", ["base"], "arm", 7, 1,
        [("CAN_ID", ⟨0, "can id"⟩)], [], [("COMMIT", ⟨1, "commit"⟩)],
        none⟩ (by decide) (by decide)).2.2.2.2.2.2.2.2.1⟩
